import Mathlib

/-!
Verification of the SalmonRun statistics extractor (`stat.py`).

The program scrapes Highcharts chart definitions and extracts per-year
date/count series via regular expressions.  We embed the string-processing
core shallowly: strings are lists of characters, and each of the three
regular expressions used by the source is modelled by an explicit
leftmost-search matcher with the exact greedy semantics of Python `re`.
-/

set_option maxRecDepth 10000

abbrev Str := List Char

def strL (s : String) : Str := s.toList

/-- Decimal value of a digit string, as computed by Python `int`. -/
def natOfDigits (ds : Str) : Nat :=
  ds.foldl (fun acc c => acc * 10 + (c.toNat - 48)) 0

/-- Match a literal at the start of the input; on success return the rest.
Models a literal piece of a regular expression. -/
def matchLit (lit s : Str) : Option Str :=
  if lit.isPrefixOf s then some (s.drop lit.length) else none

/-- Leftmost search: Python `re.search` tries every start position from the
left and returns the first position where the position-matcher succeeds. -/
def reSearch (f : Str → Option α) : Str → Option α
  | [] => f []
  | c :: cs =>
    match f (c :: cs) with
    | some r => some r
    | none => reSearch f cs

/-- Python `.` does not match a newline: a greedy `.*` consumes at most the
maximal newline-free prefix. -/
def dotStar (s : Str) : Str := s.takeWhile (fun c => c != '\n')

/-- For a pattern `(.*)\]`: the greedy star backtracks to the LAST `]` of the
reachable text; the capture is everything before that bracket. -/
def lastBracketSplit (s : Str) : Option Str :=
  match s.reverse.dropWhile (fun c => c != ']') with
  | [] => none
  | _ :: rest => some rest.reverse

/-- Position matcher for `lit(.*)\]` (used with `series:[` and `data:[`). -/
def matchBracketBody (lit : Str) (s : Str) : Option Str :=
  match matchLit lit s with
  | none => none
  | some r => lastBracketSplit (dotStar r)

/-- Position matcher for `name:'([0-9]+)',`: a greedy nonempty digit group
followed by the literal `',`.  Since the character after any shorter digit
run is a digit (not a quote), greedy backtracking cannot help: the group is
exactly the maximal digit run. -/
def matchYearAt (s : Str) : Option Str :=
  match matchLit (strL "name:\x27") s with
  | none => none
  | some r =>
    let ds := r.takeWhile Char.isDigit
    let r2 := r.dropWhile Char.isDigit
    if ds.isEmpty then none
    else
      match matchLit (strL "\x27,") r2 with
      | none => none
      | some _ => some ds

/-- `parse_year` from the source: `re.search("name:'([0-9]+)',", string)`,
returning the captured digit string (`None` → `none`). -/
def parse_year (s : Str) : Option Str := reSearch matchYearAt s

/-- A digit group `([0-9]+)` followed by a literal that starts with a
non-digit character: matches iff the maximal digit run is nonempty and is
followed by the literal; the captured value is that run. -/
def digitGroup (lit : Str) (s : Str) : Option (Nat × Str) :=
  let ds := s.takeWhile Char.isDigit
  let r := s.dropWhile Char.isDigit
  if ds.isEmpty then none
  else
    match matchLit lit r with
    | none => none
    | some r2 => some (natOfDigits ds, r2)

/-- Position matcher for `Date.UTC\(([0-9]+),([0-9]+),([0-9]+)\),([0-9]+)`.
The unescaped `.` after `Date` matches any character except newline.
Returns the four captured integers `(Y, M, D, COUNT)`. -/
def matchDateUTCAt (s : Str) : Option (Nat × Nat × Nat × Nat) :=
  match matchLit (strL "Date") s with
  | none => none
  | some r1 =>
    match r1 with
    | [] => none
    | ch :: r2 =>
      if ch = '\n' then none
      else
        match matchLit (strL "UTC(") r2 with
        | none => none
        | some r3 =>
          match digitGroup (strL ",") r3 with
          | none => none
          | some (y, r4) =>
            match digitGroup (strL ",") r4 with
            | none => none
            | some (m, r5) =>
              match digitGroup (strL "),") r5 with
              | none => none
              | some (d, r6) =>
                let cs := r6.takeWhile Char.isDigit
                if cs.isEmpty then none else some (y, m, d, natOfDigits cs)

/-- Python `str.split(sep)` for the two-character separators used by the
source (`"],"` and `"\x7d,"`): non-overlapping leftmost splitting, scanning
left to right; an input with no separator yields the one-element list. -/
def splitOn2 (c1 c2 : Char) : Str → List Str
  | [] => [[]]
  | [c] => [[c]]
  | c :: d :: rest =>
    if c = c1 ∧ d = c2 then [] :: splitOn2 c1 c2 rest
    else
      match splitOn2 c1 c2 (d :: rest) with
      | [] => [[c]]
      | x :: xs => (c :: x) :: xs

/-- Splitting on a single character (used to talk about the lines of the
output file). -/
def splitOn1 (c1 : Char) : Str → List Str
  | [] => [[]]
  | c :: cs =>
    if c = c1 then [] :: splitOn1 c1 cs
    else
      match splitOn1 c1 cs with
      | [] => [[c]]
      | x :: xs => (c :: x) :: xs

/-- Proleptic Gregorian leap year, as in Python `datetime`. -/
def isLeap (y : Nat) : Bool := (y % 4 = 0 && y % 100 != 0) || y % 400 = 0

def daysInMonth (y m : Nat) : Nat :=
  if m = 2 then (if isLeap y then 29 else 28)
  else if m = 4 || m = 6 || m = 9 || m = 11 then 30
  else 31

/-- Validity domain of `datetime.date(y, m, d)` (MINYEAR = 1, MAXYEAR = 9999);
outside it the constructor raises `ValueError`. -/
def isValidDate (y m d : Nat) : Bool :=
  1 ≤ y && y ≤ 9999 && 1 ≤ m && m ≤ 12 && 1 ≤ d && d ≤ daysInMonth y m

structure Date where
  year : Nat
  month : Nat
  day : Nat
deriving DecidableEq

structure Series where
  dates : List Date
  counts : List Nat
deriving DecidableEq

instance : Inhabited Date := ⟨⟨1, 1, 1⟩⟩

instance : Inhabited Series := ⟨⟨[], []⟩⟩

/-- One iteration of the point loop in `parse_data`: search the element for
the `Date.UTC` pattern; on a match build the date from `(int(year), M+1, D)`
and append date and count, unless `datetime.date` raises (invalid date), in
which case the point is discarded and the accumulator is unchanged. -/
def parse_point_step (year : Str) (acc : Series) (element : Str) : Series :=
  match reSearch matchDateUTCAt element with
  | none => acc
  | some r =>
    let month := r.2.1 + 1
    let day := r.2.2.1
    let count := r.2.2.2
    if isValidDate (natOfDigits year) month day then
      ⟨acc.dates ++ [⟨natOfDigits year, month, day⟩], acc.counts ++ [count]⟩
    else acc

/-- The per-point element list of `parse_data`:
`re.search("data:\[(.*)\]", s).group(1).replace('[','').split('],')`,
`none` when the `data:` pattern does not match. -/
def elementsOf (s : Str) : Option (List Str) :=
  match reSearch (matchBracketBody (strL "data:[")) s with
  | none => none
  | some content => some (splitOn2 ']' ',' (content.filter (fun c => c != '[')))

/-- `parse_data` from the source: an empty series when the `data:` pattern is
absent, otherwise the point loop over the split elements. -/
def parse_data (s : Str) (year : Str) : Series :=
  match elementsOf s with
  | none => ⟨[], []⟩
  | some es => es.foldl (parse_point_step year) ⟨[], []⟩

/-- Specification-level view of one element: the `(date, count)` pair the
element contributes, or `none` (no match, or invalid calendar date). -/
def pointOf (year : Str) (element : Str) : Option (Date × Nat) :=
  match reSearch matchDateUTCAt element with
  | none => none
  | some r =>
    if isValidDate (natOfDigits year) (r.2.1 + 1) r.2.2.1 then
      some (⟨natOfDigits year, r.2.1 + 1, r.2.2.1⟩, r.2.2.2)
    else none

/-- The points `parse_data` keeps, in order of appearance. -/
def parsePoints (s : Str) (year : Str) : List (Date × Nat) :=
  match elementsOf s with
  | none => []
  | some es => es.filterMap (pointOf year)

/-- The two brace characters (stripped before splitting the series region). -/
def lbrace : Char := Char.ofNat 123

def rbrace : Char := Char.ofNat 125

/-- Python-dict assignment `m[k] = v` on an insertion-ordered association
list: replace the entry for an existing key in place, otherwise append. -/
def upsert : List (Str × Series) → Str → Series → List (Str × Series)
  | [], k, v => [(k, v)]
  | p :: m, k, v => if p.1 = k then (k, v) :: m else p :: upsert m k v

/-- Dictionary lookup `m[k]` (as an Option). -/
def lookupYear (m : List (Str × Series)) (k : Str) : Option Series :=
  (m.find? (fun p => p.1 = k)).map (fun p => p.2)

/-- Number of entries of the mapping carrying a given key. -/
def countKey (m : List (Str × Series)) (k : Str) : Nat :=
  m.countP (fun p => p.1 = k)

/-- One iteration of the group loop in `get_salmon_statistics`: skip the
fragment when `parse_year` finds nothing, else assign
`statistics[river][year] = parse_data(group, year)`. -/
def series_step (acc : List (Str × Series)) (g : Str) : List (Str × Series) :=
  match parse_year g with
  | none => acc
  | some year => upsert acc year (parse_data g year)

/-- `re.search('series:\[(.*)\]', line).group(1).replace('{','').split('},')`;
`none` models the fatal `AttributeError` when the pattern is absent. -/
def raw_groups_of (line : Str) : Option (List Str) :=
  match reSearch (matchBracketBody (strL "series:[")) line with
  | none => none
  | some raw => some (splitOn2 rbrace ',' (raw.filter (fun c => c != lbrace)))

/-- The per-document core of `get_salmon_statistics`: the year → Series
mapping built from one normalized single-line script. -/
def get_salmon_statistics_line (line : Str) : Option (List (Str × Series)) :=
  match raw_groups_of line with
  | none => none
  | some gs => some (gs.foldl series_step [])

/-- The whitespace normalization
`script.replace('\n','').replace('\r','').replace('\t','').replace(' ','')`. -/
def normalize_script (s : Str) : Str :=
  s.filter (fun c => !(c = '\n' || c = '\r' || c = '\t' || c = ' '))

def digitChar (n : Nat) : Char := Char.ofNat (48 + n)

/-- Decimal digits of a natural number, most significant first (fuel-indexed
so that it is structural; the fuel `n+1` always suffices). -/
def natToStrAux : Nat → Nat → Str
  | 0, _ => []
  | fuel + 1, n =>
    if n < 10 then [digitChar n]
    else natToStrAux fuel (n / 10) ++ [digitChar (n % 10)]

/-- Python `str` of a non-negative integer. -/
def natToStr (n : Nat) : Str := natToStrAux (n + 1) n

/-- Zero-pad a decimal representation to a fixed width. -/
def padNum (w n : Nat) : Str :=
  List.replicate (w - (natToStr n).length) '0' ++ natToStr n

/-- Python `str(datetime.date(y, m, d))`: ISO format `YYYY-MM-DD`. -/
def dateToStr (d : Date) : Str :=
  padNum 4 d.year ++ ['-'] ++ padNum 2 d.month ++ ['-'] ++ padNum 2 d.day

/-- `list_to_string` from the source: `",".join(str(e) for e in lst)`,
taking the already-stringified elements. -/
def list_to_string : List Str → Str
  | [] => []
  | [x] => x
  | x :: xs => x ++ ',' :: list_to_string xs

/-- The exact byte content `store_salmon_statistics` writes: the joined
dates, a newline, the joined counts, a newline. -/
def store_content (data : Series) : Str :=
  list_to_string (data.dates.map dateToStr) ++ '\n' ::
    (list_to_string (data.counts.map natToStr) ++ ['\n'])

/-- `store_salmon_statistics` on a file system modelled as a map from path
to content: mode `'w+'` truncates, so the previous content is discarded. -/
def store_salmon_statistics (fs : Str → Option Str) (data : Series)
    (file_name : Str) : Str → Option Str :=
  fun p => if p = file_name then some (store_content data) else fs p

/-- `"WARNING: No statistics available for river {}, year {}".format(river, year)`. -/
def warning_message (river year : Str) : Str :=
  strL "WARNING: No statistics available for river " ++ river ++
    strL ", year " ++ year

/-- `str(args.output / (river + year + '.txt'))`. -/
def file_path (output river year : Str) : Str :=
  output ++ '/' :: (river ++ year ++ strL ".txt")

/-- One iteration of the inner loop of `main`: write the file when both
lists are non-empty (Python truthiness), otherwise print the warning.  The
state is the file system together with the emitted warnings. -/
def main_step (output river : Str) (st : (Str → Option Str) × List Str)
    (p : Str × Series) : (Str → Option Str) × List Str :=
  if p.2.dates ≠ [] ∧ p.2.counts ≠ [] then
    (store_salmon_statistics st.1 p.2 (file_path output river p.1), st.2)
  else
    (st.1, st.2 ++ [warning_message river p.1])

/-- The inner loop of `main` over the year → Series mapping of one river. -/
def main_loop (output river : Str) (st : (Str → Option Str) × List Str)
    (l : List (Str × Series)) : (Str → Option Str) × List Str :=
  l.foldl (main_step output river) st

/-- The synthetic fragment of the spec's first test property. -/
def c4Fragment : Str :=
  strL "name:\x272021\x27,data:[[Date.UTC(2021,0,15),42],[Date.UTC(2021,0,16),7]]"

/-- A fragment with three points of which the second (February 30) is not a
valid calendar date. -/
def c3Fragment : Str :=
  strL "name:\x272021\x27,data:[[Date.UTC(2021,0,15),42],[Date.UTC(2021,1,30),5],[Date.UTC(2021,0,16),7]]"

def c3E1 : Str := strL "Date.UTC(2021,0,15),42"

def c3E2 : Str := strL "Date.UTC(2021,1,30),5"

def c3E3 : Str := strL "Date.UTC(2021,0,16),7]"

/-- A fragment whose name-marker year (2020) differs from the year literal
inside `Date.UTC` (2021). -/
def c1Fragment : Str :=
  strL "name:\x272020\x27,data:[[Date.UTC(2021,0,15),42]]"

/-- A whole normalized script line containing `c1Fragment`. -/
def c1Line : Str :=
  strL "series:[\x7b" ++ c1Fragment ++ strL "\x7d]"

theorem parse_point_step_eq (year : Str) (acc : Series) (e : Str) :
    parse_point_step year acc e =
      match pointOf year e with
      | none => acc
      | some p => ⟨acc.dates ++ [p.1], acc.counts ++ [p.2]⟩ := by
  unfold parse_point_step pointOf
  cases reSearch matchDateUTCAt e with
  | none => rfl
  | some r =>
    by_cases h : isValidDate (natOfDigits year) (r.2.1 + 1) r.2.2.1 = true
    · simp [h]
    · simp [h]

theorem foldl_parse_point_step (year : Str) (es : List Str) (acc : Series) :
    es.foldl (parse_point_step year) acc =
      ⟨acc.dates ++ (es.filterMap (pointOf year)).map Prod.fst,
       acc.counts ++ (es.filterMap (pointOf year)).map Prod.snd⟩ := by
  induction es generalizing acc with
  | nil => simp
  | cons e es ih =>
    rw [List.foldl_cons, ih, parse_point_step_eq]
    cases hp : pointOf year e with
    | none => simp [List.filterMap_cons, hp]
    | some p => simp [List.filterMap_cons, hp]

/-- `parse_data` is exactly the in-order `filterMap` of the per-element
point extraction: dates and counts are the two projections of one list. -/
theorem parse_data_eq_points (s year : Str) :
    parse_data s year =
      ⟨(parsePoints s year).map Prod.fst, (parsePoints s year).map Prod.snd⟩ := by
  unfold parse_data parsePoints
  cases elementsOf s with
  | none => rfl
  | some es => simpa using foldl_parse_point_step year es ⟨[], []⟩

/-- Claim C2: for every input string and year string, the Series returned by
`parse_data` has `dates` and `counts` of equal length, both are the in-order
projections of the list of successfully extracted points (ordered by
appearance in the source string), and a point whose date construction fails
contributes to neither list (it is dropped from `parsePoints`). -/
theorem parse_data_length_invariant (s year : Str) :
    (parse_data s year).dates = (parsePoints s year).map Prod.fst ∧
    (parse_data s year).counts = (parsePoints s year).map Prod.snd ∧
    (parse_data s year).dates.length = (parse_data s year).counts.length := by
  rw [parse_data_eq_points s year]
  simp

/-- Claim C4: on the synthetic fragment
`name:'2021',data:[[Date.UTC(2021,0,15),42],[Date.UTC(2021,0,16),7]]`
the year parser returns `"2021"` and the data parser returns
`dates = [2021-01-15, 2021-01-16]`, `counts = [42, 7]`: the zero-based
month 0 becomes calendar month 1 and encounter order is preserved. -/
theorem synthetic_fragment_extraction :
    parse_year c4Fragment = some (strL "2021") ∧
    parse_data c4Fragment (strL "2021") =
      ⟨[⟨2021, 1, 15⟩, ⟨2021, 1, 16⟩], [42, 7]⟩ := by decide

/-- Claim C3: when a matched point's calendar triple is invalid, the single
point is discarded and the remaining points of the fragment are still
processed: a fragment with three matched points of which one is invalid
yields a Series with dates and counts of length 2. -/
theorem invalid_point_dropped (s year e1 e2 e3 : Str) (p1 p3 : Date × Nat)
    (hes : elementsOf s = some [e1, e2, e3])
    (h2m : reSearch matchDateUTCAt e2 ≠ none)
    (h1 : pointOf year e1 = some p1)
    (h2 : pointOf year e2 = none)
    (h3 : pointOf year e3 = some p3) :
    parse_data s year = ⟨[p1.1, p3.1], [p1.2, p3.2]⟩ ∧
    (parse_data s year).dates.length = 2 ∧
    (parse_data s year).counts.length = 2 := by
  have h := parse_data_eq_points s year
  unfold parsePoints at h
  rw [hes] at h
  rw [h]
  simp [List.filterMap_cons, h1, h2, h3]

theorem invalid_point_dropped_witness :
    parse_data c3Fragment (strL "2021") =
      ⟨[⟨2021, 1, 15⟩, ⟨2021, 1, 16⟩], [42, 7]⟩ ∧
    (parse_data c3Fragment (strL "2021")).dates.length = 2 ∧
    (parse_data c3Fragment (strL "2021")).counts.length = 2 :=
  invalid_point_dropped c3Fragment (strL "2021") c3E1 c3E2 c3E3
    (⟨2021, 1, 15⟩, 42) (⟨2021, 1, 16⟩, 7)
    (by decide) (by decide) (by decide) (by decide) (by decide)

/-- Claim C1, counterexample: in a fragment whose name-marker year (2020)
differs from the year literal inside `Date.UTC` (2021), the appended date
carries year 2020 — the year of the `name:'...'` marker — not the year 2021
matched inside the `Date.UTC` expression, both at the `parse_data` level and
in the full per-line extraction. -/
theorem date_year_counterexample :
    parse_data c1Fragment (strL "2020") = ⟨[⟨2020, 1, 15⟩], [42]⟩ ∧
    parse_data c1Fragment (strL "2020") ≠ ⟨[⟨2021, 1, 15⟩], [42]⟩ ∧
    get_salmon_statistics_line c1Line =
      some [(strL "2020", ⟨[⟨2020, 1, 15⟩], [42]⟩)] := by decide

/-- Claim C1, amended: the calendar date appended for a matched point is
constructed from `(int(year), M+1, D)` where `year` is the fragment's
name-marker year string passed to `parse_data`; the `Y` literal captured
inside `Date.UTC` is ignored, while `M+1` and `D` do come from the match. -/
theorem date_built_from_name_year (s year : Str) (d : Date)
    (hd : d ∈ (parse_data s year).dates) :
    d.year = natOfDigits year ∧
    ∃ es e r, elementsOf s = some es ∧ e ∈ es ∧
      reSearch matchDateUTCAt e = some r ∧
      d.month = r.2.1 + 1 ∧ d.day = r.2.2.1 := by
  rw [parse_data_eq_points s year] at hd
  cases hes : elementsOf s with
  | none =>
    simp only [parsePoints, hes, List.filterMap_nil, List.map_nil] at hd
    exact absurd hd (by simp)
  | some es =>
    simp only [parsePoints, hes, List.mem_map] at hd
    obtain ⟨p, hp, rfl⟩ := hd
    rw [List.mem_filterMap] at hp
    obtain ⟨e, he, hpe⟩ := hp
    cases hr : reSearch matchDateUTCAt e with
    | none =>
      have hnone : pointOf year e = none := by simp only [pointOf, hr]
      rw [hnone] at hpe
      exact absurd hpe (by simp)
    | some r =>
      by_cases hv : isValidDate (natOfDigits year) (r.2.1 + 1) r.2.2.1 = true
      · have hsome : pointOf year e =
            some (⟨natOfDigits year, r.2.1 + 1, r.2.2.1⟩, r.2.2.2) := by
          simp only [pointOf, hr]
          rw [if_pos hv]
        rw [hsome] at hpe
        have hp1 : p = (⟨natOfDigits year, r.2.1 + 1, r.2.2.1⟩, r.2.2.2) := by
          injection hpe with h2
          rw [← h2]
        rw [hp1]
        exact ⟨rfl, es, e, r, rfl, he, hr, rfl, rfl⟩
      · have hnone : pointOf year e = none := by
          simp only [pointOf, hr]
          rw [if_neg hv]
        rw [hnone] at hpe
        exact absurd hpe (by simp)

theorem date_built_from_name_year_witness :
    (⟨2020, 1, 15⟩ : Date).year = natOfDigits (strL "2020") ∧
    ∃ es e r, elementsOf c1Fragment = some es ∧ e ∈ es ∧
      reSearch matchDateUTCAt e = some r ∧
      (⟨2020, 1, 15⟩ : Date).month = r.2.1 + 1 ∧
      (⟨2020, 1, 15⟩ : Date).day = r.2.2.1 :=
  date_built_from_name_year c1Fragment (strL "2020") ⟨2020, 1, 15⟩ (by decide)

/-- Claim C5: a fragment in which the year-name pattern does not match
contributes no entry to the result mapping: the group step of
`get_salmon_statistics` leaves the accumulated mapping unchanged, so no key
(empty, placeholder, or otherwise) is created for it. -/
theorem nameless_fragment_skipped (g : Str) (acc : List (Str × Series))
    (h : parse_year g = none) :
    series_step acc g = acc := by
  simp only [series_step, h]

theorem nameless_fragment_skipped_witness :
    parse_year (strL "data:[[Date.UTC(2021,0,1),5]]") = none ∧
    series_step [(strL "2020", ⟨[], []⟩)] (strL "data:[[Date.UTC(2021,0,1),5]]")
      = [(strL "2020", ⟨[], []⟩)] :=
  ⟨by decide,
   nameless_fragment_skipped (strL "data:[[Date.UTC(2021,0,1),5]]")
     [(strL "2020", ⟨[], []⟩)] (by decide)⟩

theorem lookupYear_upsert_self (m : List (Str × Series)) (k : Str) (v : Series) :
    lookupYear (upsert m k v) k = some v := by
  induction m with
  | nil => simp [upsert, lookupYear, List.find?]
  | cons p m ih =>
    by_cases h : p.1 = k
    · simp [upsert, h, lookupYear, List.find?]
    · simp only [upsert, if_neg h]
      simpa [lookupYear, List.find?, h] using ih

theorem lookupYear_upsert_other (m : List (Str × Series)) (k k2 : Str) (v : Series)
    (h : k2 ≠ k) :
    lookupYear (upsert m k2 v) k = lookupYear m k := by
  induction m with
  | nil => simp [upsert, lookupYear, List.find?, h]
  | cons p m ih =>
    by_cases hp : p.1 = k2
    · have hpk : ¬p.1 = k := by rw [hp]; exact h
      simp [upsert, hp, lookupYear, List.find?, h, hpk]
    · simp only [upsert, if_neg hp]
      by_cases hpk : p.1 = k
      · simp [lookupYear, List.find?, hpk]
      · simpa [lookupYear, List.find?, hpk] using ih

theorem countKey_upsert_pos (m : List (Str × Series)) (k : Str) (v : Series) :
    1 ≤ countKey (upsert m k v) k := by
  induction m with
  | nil => simp [upsert, countKey]
  | cons p m ih =>
    by_cases h : p.1 = k
    · simp [upsert, h, countKey, List.countP_cons]
    · simpa [upsert, h, countKey, List.countP_cons] using ih

theorem countKey_upsert_le_one (m : List (Str × Series)) (k : Str) (v : Series)
    (h : countKey m k ≤ 1) :
    countKey (upsert m k v) k ≤ 1 := by
  induction m with
  | nil => simp [upsert, countKey]
  | cons p m ih =>
    by_cases hp : p.1 = k
    · have hc : countKey (p :: m) k = countKey m k + 1 := by
        simp [countKey, List.countP_cons, hp]
      have h2 : upsert (p :: m) k v = (k, v) :: m := by simp [upsert, hp]
      rw [h2]
      have h3 : countKey ((k, v) :: m) k = countKey m k + 1 := by
        simp [countKey, List.countP_cons]
      omega
    · have hc : countKey (p :: m) k = countKey m k := by
        simp [countKey, List.countP_cons, hp]
      have h2 : upsert (p :: m) k v = p :: upsert m k v := by simp [upsert, hp]
      rw [h2]
      have h3 : countKey (p :: upsert m k v) k = countKey (upsert m k v) k := by
        simp [countKey, List.countP_cons, hp]
      rw [h3]
      exact ih (by omega)

theorem countKey_upsert_other (m : List (Str × Series)) (k k2 : Str) (v : Series)
    (h : k2 ≠ k) :
    countKey (upsert m k2 v) k = countKey m k := by
  induction m with
  | nil => simp [upsert, countKey, h]
  | cons p m ih =>
    by_cases hp : p.1 = k2
    · have hpk : ¬p.1 = k := by rw [hp]; exact h
      simp [upsert, hp, countKey, List.countP_cons, h, hpk]
    · simp only [upsert, if_neg hp, countKey, List.countP_cons]
      simpa [countKey] using ih

theorem lookupYear_series_step_ne (acc : List (Str × Series)) (g y : Str)
    (h : parse_year g ≠ some y) :
    lookupYear (series_step acc g) y = lookupYear acc y := by
  unfold series_step
  cases hg : parse_year g with
  | none => rfl
  | some y2 =>
    exact lookupYear_upsert_other acc y y2 (parse_data g y2)
      (fun he => h (by rw [hg, he]))

theorem lookupYear_series_step_hit (acc : List (Str × Series)) (g y : Str)
    (h : parse_year g = some y) :
    lookupYear (series_step acc g) y = some (parse_data g y) := by
  unfold series_step
  rw [h]
  exact lookupYear_upsert_self acc y (parse_data g y)

theorem lookupYear_foldl_ne (l : List Str) (acc : List (Str × Series)) (y : Str)
    (h : ∀ g ∈ l, parse_year g ≠ some y) :
    lookupYear (l.foldl series_step acc) y = lookupYear acc y := by
  induction l generalizing acc with
  | nil => rfl
  | cons g l ih =>
    rw [List.foldl_cons, ih _ (fun g2 hg2 => h g2 (by simp [hg2]))]
    exact lookupYear_series_step_ne acc g y (h g (by simp))

theorem countKey_series_step_le_one (acc : List (Str × Series)) (g y : Str)
    (h : countKey acc y ≤ 1) :
    countKey (series_step acc g) y ≤ 1 := by
  unfold series_step
  cases hg : parse_year g with
  | none => exact h
  | some y2 =>
    by_cases he : y2 = y
    · subst he
      exact countKey_upsert_le_one acc y2 (parse_data g y2) h
    · rw [countKey_upsert_other acc y y2 (parse_data g y2) he]
      exact h

theorem countKey_series_step_ne (acc : List (Str × Series)) (g y : Str)
    (h : parse_year g ≠ some y) :
    countKey (series_step acc g) y = countKey acc y := by
  unfold series_step
  cases hg : parse_year g with
  | none => rfl
  | some y2 =>
    exact countKey_upsert_other acc y y2 (parse_data g y2)
      (fun he => h (by rw [hg, he]))

theorem countKey_foldl_le_one (l : List Str) (acc : List (Str × Series)) (y : Str)
    (h : countKey acc y ≤ 1) :
    countKey (l.foldl series_step acc) y ≤ 1 := by
  induction l generalizing acc with
  | nil => exact h
  | cons g l ih =>
    rw [List.foldl_cons]
    exact ih _ (countKey_series_step_le_one acc g y h)

theorem countKey_foldl_ne (l : List Str) (acc : List (Str × Series)) (y : Str)
    (h : ∀ g ∈ l, parse_year g ≠ some y) :
    countKey (l.foldl series_step acc) y = countKey acc y := by
  induction l generalizing acc with
  | nil => rfl
  | cons g l ih =>
    rw [List.foldl_cons, ih _ (fun g2 hg2 => h g2 (by simp [hg2]))]
    exact countKey_series_step_ne acc g y (h g (by simp))

theorem countKey_series_step_pos (acc : List (Str × Series)) (g y : Str)
    (h : parse_year g = some y) :
    1 ≤ countKey (series_step acc g) y := by
  unfold series_step
  rw [h]
  exact countKey_upsert_pos acc y (parse_data g y)

/-- Claim C10: when two fragments of the same document declare the same year,
the result mapping holds exactly one entry for that year, and its Series is
the one parsed from the later fragment in split order (last-wins silent
overwrite). -/
theorem duplicate_year_last_wins (pre1 mid post : List Str) (g1 g2 y : Str)
    (h1 : parse_year g1 = some y) (h2 : parse_year g2 = some y)
    (hpost : ∀ g ∈ post, parse_year g ≠ some y) :
    lookupYear ((pre1 ++ g1 :: mid ++ g2 :: post).foldl series_step []) y
      = some (parse_data g2 y) ∧
    countKey ((pre1 ++ g1 :: mid ++ g2 :: post).foldl series_step []) y = 1 := by
  have hsplit : (pre1 ++ g1 :: mid ++ g2 :: post).foldl series_step
      ([] : List (Str × Series)) =
      post.foldl series_step
        (series_step ((mid.foldl series_step
          (series_step (pre1.foldl series_step []) g1))) g2) := by
    simp [List.foldl_append, List.foldl_cons]
  rw [hsplit]
  constructor
  · rw [lookupYear_foldl_ne post _ y hpost]
    exact lookupYear_series_step_hit _ g2 y h2
  · have hle : countKey (series_step (mid.foldl series_step
        (series_step (pre1.foldl series_step []) g1)) g2) y ≤ 1 := by
      apply countKey_series_step_le_one
      apply countKey_foldl_le_one
      apply countKey_series_step_le_one
      apply countKey_foldl_le_one
      simp [countKey]
    have hpos : 1 ≤ countKey (series_step (mid.foldl series_step
        (series_step (pre1.foldl series_step []) g1)) g2) y :=
      countKey_series_step_pos _ g2 y h2
    rw [countKey_foldl_ne post _ y hpost]
    omega

theorem duplicate_year_last_wins_witness :
    parse_year (strL "name:\x272021\x27,data:[[Date.UTC(2021,0,1),5]]")
      = some (strL "2021") ∧
    parse_year (strL "name:\x272021\x27,data:[[Date.UTC(2021,0,2),9]]")
      = some (strL "2021") ∧
    lookupYear ((([] : List Str) ++
        strL "name:\x272021\x27,data:[[Date.UTC(2021,0,1),5]]" :: [] ++
        strL "name:\x272021\x27,data:[[Date.UTC(2021,0,2),9]]" :: []).foldl
          series_step []) (strL "2021")
      = some (parse_data (strL "name:\x272021\x27,data:[[Date.UTC(2021,0,2),9]]")
          (strL "2021")) ∧
    countKey ((([] : List Str) ++
        strL "name:\x272021\x27,data:[[Date.UTC(2021,0,1),5]]" :: [] ++
        strL "name:\x272021\x27,data:[[Date.UTC(2021,0,2),9]]" :: []).foldl
          series_step []) (strL "2021") = 1 := by
  refine ⟨by decide, by decide, ?_, ?_⟩
  · exact (duplicate_year_last_wins [] [] []
      (strL "name:\x272021\x27,data:[[Date.UTC(2021,0,1),5]]")
      (strL "name:\x272021\x27,data:[[Date.UTC(2021,0,2),9]]")
      (strL "2021") (by decide) (by decide) (by simp)).1
  · exact (duplicate_year_last_wins [] [] []
      (strL "name:\x272021\x27,data:[[Date.UTC(2021,0,1),5]]")
      (strL "name:\x272021\x27,data:[[Date.UTC(2021,0,2),9]]")
      (strL "2021") (by decide) (by decide) (by simp)).2

theorem mem_takeWhile_pred (p : Char → Bool) :
    ∀ (l : Str) (x : Char), x ∈ l.takeWhile p → p x = true := by
  intro l
  induction l with
  | nil => simp
  | cons a l ih =>
    intro x hx
    rw [List.takeWhile_cons] at hx
    by_cases hp : p a = true
    · rw [if_pos hp] at hx
      rcases List.mem_cons.mp hx with rfl | hx
      · exact hp
      · exact ih x hx
    · rw [if_neg hp] at hx
      simp at hx

theorem lastBracketSplit_spec (c d : Str) (hd : ∀ x ∈ d, (x != ']') = true) :
    lastBracketSplit (c ++ ']' :: d) = some c := by
  unfold lastBracketSplit
  have hrev : (c ++ ']' :: d).reverse = d.reverse ++ ']' :: c.reverse := by
    simp
  rw [hrev]
  have hdrop : (d.reverse ++ ']' :: c.reverse).dropWhile (fun x => x != ']')
      = ']' :: c.reverse := by
    rw [List.dropWhile_append_of_pos (fun a ha => hd a (by simpa using ha))]
    rw [List.dropWhile_cons]
    simp
  rw [hdrop]
  simp

theorem dotStar_decomp (c d : Str) (hc : ∀ x ∈ c, (x != '\n') = true) :
    dotStar (c ++ ']' :: d) = c ++ ']' :: dotStar d := by
  unfold dotStar
  rw [List.takeWhile_append_of_pos hc, List.takeWhile_cons]
  simp

theorem matchBracketBody_at (pre c d : Str)
    (hc : ∀ x ∈ c, (x != '\n') = true)
    (hd : ∀ x ∈ d, (x != ']') = true) :
    matchBracketBody pre (pre ++ (c ++ ']' :: d)) = some c := by
  unfold matchBracketBody matchLit
  rw [if_pos (List.isPrefixOf_iff_prefix.mpr (List.prefix_append pre _))]
  rw [List.drop_left]
  show lastBracketSplit (dotStar (c ++ ']' :: d)) = some c
  rw [dotStar_decomp c d hc]
  exact lastBracketSplit_spec c (dotStar d)
    (fun x hx => hd x ((List.takeWhile_sublist _).subset (by simpa [dotStar] using hx)))

theorem reSearch_append_none (f : Str → Option α) (a s : Str)
    (hfail : ∀ i, i < a.length → f ((a ++ s).drop i) = none) :
    reSearch f (a ++ s) = reSearch f s := by
  induction a with
  | nil => simp
  | cons x a ih =>
    have h0 : f (x :: (a ++ s)) = none := by
      have h1 := hfail 0 (by simp)
      simpa using h1
    have hstep : reSearch f (x :: (a ++ s)) = reSearch f (a ++ s) := by
      simp only [reSearch, h0]
    rw [List.cons_append, hstep]
    exact ih (fun i hi => by
      have h2 := hfail (i + 1) (by simp; omega)
      simpa using h2)

theorem reSearch_of_head (f : Str → Option α) (s : Str) (v : α) (h : f s = some v) :
    reSearch f s = some v := by
  cases s with
  | nil => simpa [reSearch] using h
  | cons c cs => simp [reSearch, h]

/-- Claim C6: on a single-line text that decomposes as
`a ++ pre ++ c ++ "]" ++ d` — with the first occurrence of the pattern
prefix `pre` (`series:[` or `data:[`) right after `a`, and `d` containing
no further `]` so that the `]` shown is the last one on the line — the
extractor's search captures exactly `c`, the substring between the first
occurrence of the prefix and the last `]`; when `c` itself contains a `]`
(nested brackets) this differs from the minimal match that would stop at
the first closing bracket. -/
theorem greedy_series_region (pre a c d : Str)
    (hfirst : ∀ i, i < a.length →
      pre.isPrefixOf ((a ++ (pre ++ (c ++ ']' :: d))).drop i) = false)
    (hc : ∀ x ∈ c, (x != '\n') = true)
    (hd : ∀ x ∈ d, (x != ']') = true) :
    reSearch (matchBracketBody pre) (a ++ (pre ++ (c ++ ']' :: d))) = some c ∧
    (']' ∈ c → reSearch (matchBracketBody pre) (a ++ (pre ++ (c ++ ']' :: d)))
      ≠ some (c.takeWhile (fun x => x != ']'))) := by
  have hmain : reSearch (matchBracketBody pre) (a ++ (pre ++ (c ++ ']' :: d)))
      = some c := by
    rw [reSearch_append_none (matchBracketBody pre) a (pre ++ (c ++ ']' :: d))
      (fun i hi => by simp [matchBracketBody, matchLit, hfirst i hi])]
    exact reSearch_of_head _ _ c (matchBracketBody_at pre c d hc hd)
  refine ⟨hmain, fun hbr heq => ?_⟩
  rw [hmain] at heq
  have hceq : c = c.takeWhile (fun x => x != ']') := by
    injection heq
  rw [hceq] at hbr
  have := mem_takeWhile_pred (fun x => x != ']') c ']' hbr
  simp at this

theorem greedy_series_region_witness :
    reSearch (matchBracketBody (strL "series:["))
        (strL "xy" ++ (strL "series:[" ++ (strL "[1],[2]" ++ ']' :: strL "z")))
      = some (strL "[1],[2]") ∧
    (']' ∈ strL "[1],[2]" →
      reSearch (matchBracketBody (strL "series:["))
          (strL "xy" ++ (strL "series:[" ++ (strL "[1],[2]" ++ ']' :: strL "z")))
        ≠ some ((strL "[1],[2]").takeWhile (fun x => x != ']'))) ∧
    reSearch (matchBracketBody (strL "data:["))
        (strL "" ++ (strL "data:[" ++
          (strL "[Date.UTC(2021,0,15),42],[Date.UTC(2021,0,16),7]" ++ ']' :: strL "")))
      = some (strL "[Date.UTC(2021,0,15),42],[Date.UTC(2021,0,16),7]") :=
  ⟨(greedy_series_region (strL "series:[") (strL "xy") (strL "[1],[2]") (strL "z")
      (by decide) (by decide) (by decide)).1,
   (greedy_series_region (strL "series:[") (strL "xy") (strL "[1],[2]") (strL "z")
      (by decide) (by decide) (by decide)).2,
   (greedy_series_region (strL "data:[") (strL "")
      (strL "[Date.UTC(2021,0,15),42],[Date.UTC(2021,0,16),7]") (strL "")
      (by decide) (by decide) (by decide)).1⟩

theorem digitChar_isDigit (k : Nat) (h : k < 10) : (digitChar k).isDigit = true := by
  interval_cases k <;> decide

theorem natToStrAux_digits (fuel : Nat) :
    ∀ (n : Nat) (c : Char), c ∈ natToStrAux fuel n → c.isDigit = true := by
  induction fuel with
  | zero => intro n c hc; simp [natToStrAux] at hc
  | succ f ih =>
    intro n c hc
    unfold natToStrAux at hc
    by_cases h : n < 10
    · rw [if_pos h] at hc
      simp at hc
      subst hc
      exact digitChar_isDigit n h
    · rw [if_neg h] at hc
      rw [List.mem_append] at hc
      rcases hc with hc | hc
      · exact ih _ c hc
      · simp at hc
        subst hc
        exact digitChar_isDigit _ (Nat.mod_lt n (by omega))

theorem natToStr_digits (n : Nat) : ∀ c ∈ natToStr n, c.isDigit = true :=
  fun c hc => natToStrAux_digits (n + 1) n c hc

theorem natToStr_ne_nil (n : Nat) : natToStr n ≠ [] := by
  unfold natToStr natToStrAux
  by_cases h : n < 10
  · simp [h]
  · simp [h]

theorem padNum_digits (w n : Nat) : ∀ c ∈ padNum w n, c.isDigit = true := by
  intro c hc
  unfold padNum at hc
  rw [List.mem_append] at hc
  rcases hc with hc | hc
  · rw [List.eq_of_mem_replicate hc]
    decide
  · exact natToStr_digits n c hc

theorem padNum_ne_nil (w n : Nat) : padNum w n ≠ [] := by
  unfold padNum
  intro h
  rcases List.append_eq_nil.mp h with ⟨_, h2⟩
  exact natToStr_ne_nil n h2

theorem dateToStr_chars (d : Date) :
    ∀ c ∈ dateToStr d, c.isDigit = true ∨ c = '-' := by
  intro c hc
  unfold dateToStr at hc
  simp only [List.mem_append, List.mem_cons, List.not_mem_nil, or_false] at hc
  rcases hc with (((hc | hc) | hc) | hc) | hc
  · exact Or.inl (padNum_digits 4 d.year c hc)
  · exact Or.inr hc
  · exact Or.inl (padNum_digits 2 d.month c hc)
  · exact Or.inr hc
  · exact Or.inl (padNum_digits 2 d.day c hc)

theorem dateToStr_ne_nil (d : Date) : dateToStr d ≠ [] := by
  unfold dateToStr
  intro h
  simp only [List.append_eq_nil] at h
  exact padNum_ne_nil 4 d.year h.1.1.1.1

theorem isDigit_ne_newline (c : Char) (h : c.isDigit = true) : c ≠ '\n' := by
  intro he
  subst he
  exact absurd h (by decide)

theorem isDigit_ne_comma (c : Char) (h : c.isDigit = true) : c ≠ ',' := by
  intro he
  subst he
  exact absurd h (by decide)

theorem list_to_string_chars (l : List Str) (x : Char)
    (hx : x ∈ list_to_string l) : x = ',' ∨ ∃ y ∈ l, x ∈ y := by
  induction l with
  | nil => simp [list_to_string] at hx
  | cons a l ih =>
    cases l with
    | nil =>
      right
      exact ⟨a, by simp, by simpa [list_to_string] using hx⟩
    | cons b l2 =>
      simp only [list_to_string] at hx
      rcases List.mem_append.mp hx with h | h
      · right
        exact ⟨a, by simp, h⟩
      · rcases List.mem_cons.mp h with rfl | h
        · exact Or.inl rfl
        · rcases ih h with h | ⟨y, hy, hxy⟩
          · exact Or.inl h
          · right
            exact ⟨y, by simp [hy], hxy⟩

theorem list_to_string_ne_nil (l : List Str) (hl : l ≠ [])
    (hne : ∀ x ∈ l, x ≠ []) : list_to_string l ≠ [] := by
  cases l with
  | nil => exact absurd rfl hl
  | cons a l =>
    cases l with
    | nil => simpa [list_to_string] using hne a (by simp)
    | cons b l2 =>
      simp only [list_to_string]
      intro h
      rcases List.append_eq_nil.mp h with ⟨_, h2⟩
      exact absurd h2 (by simp)

theorem list_to_string_getLast_ne (l : List Str)
    (hne : ∀ x ∈ l, x ≠ []) (hch : ∀ x ∈ l, ∀ c ∈ x, c ≠ ',') :
    ∀ c, (list_to_string l).getLast? = some c → c ≠ ',' := by
  induction l with
  | nil => intro c hc; simp [list_to_string] at hc
  | cons a l ih =>
    cases l with
    | nil =>
      intro c hc
      exact hch a (by simp) c
        (List.mem_of_getLast?_eq_some (by simpa [list_to_string] using hc))
    | cons b l2 =>
      intro c hc
      simp only [list_to_string] at hc
      rw [List.getLast?_append_of_ne_nil _ (by simp)] at hc
      have hrest : list_to_string (b :: l2) ≠ [] :=
        list_to_string_ne_nil (b :: l2) (by simp) (fun x hx => hne x (by simp [hx]))
      cases hr : list_to_string (b :: l2) with
      | nil => exact absurd hr hrest
      | cons z zs =>
        rw [hr, List.getLast?_cons_cons] at hc
        exact ih (fun x hx => hne x (by simp [hx]))
          (fun x hx => hch x (by simp [hx])) c (by rw [hr]; exact hc)

theorem splitOn1_append (c1 : Char) (a b : Str) (ha : ∀ x ∈ a, x ≠ c1) :
    splitOn1 c1 (a ++ c1 :: b) = a :: splitOn1 c1 b := by
  induction a with
  | nil => simp [splitOn1]
  | cons x a ih =>
    have hx : ¬x = c1 := ha x (by simp)
    rw [List.cons_append]
    show (if x = c1 then [] :: splitOn1 c1 (a ++ c1 :: b)
          else
            match splitOn1 c1 (a ++ c1 :: b) with
            | [] => [[x]]
            | z :: zs => (x :: z) :: zs) = (x :: a) :: splitOn1 c1 b
    rw [if_neg hx, ih (fun y hy => ha y (by simp [hy]))]

/-- Claim C7: given a Series with non-empty dates and counts, the Writer's
file content consists of exactly two newline-terminated lines — the
comma-joined date strings and the comma-joined decimal counts — neither line
ending in a comma; for dates=[2021-01-15], counts=[42] the two lines are
exactly `2021-01-15` and `42`. -/
theorem store_two_lines (data : Series)
    (h1 : data.dates ≠ []) (h2 : data.counts ≠ []) :
    splitOn1 '\n' (store_content data) =
      [list_to_string (data.dates.map dateToStr),
       list_to_string (data.counts.map natToStr), []] ∧
    (∀ c, (list_to_string (data.dates.map dateToStr)).getLast? = some c → c ≠ ',') ∧
    (∀ c, (list_to_string (data.counts.map natToStr)).getLast? = some c → c ≠ ',') ∧
    store_content ⟨[⟨2021, 1, 15⟩], [42]⟩ = strL "2021-01-15\n42\n" ∧
    splitOn1 '\n' (strL "2021-01-15\n42\n") = [strL "2021-01-15", strL "42", []] := by
  have hnl1 : ∀ x ∈ list_to_string (data.dates.map dateToStr), x ≠ '\n' := by
    intro x hx
    rcases list_to_string_chars _ x hx with rfl | ⟨y, hy, hxy⟩
    · decide
    · rcases List.mem_map.mp hy with ⟨dd, _, rfl⟩
      rcases dateToStr_chars dd x hxy with h | rfl
      · exact isDigit_ne_newline x h
      · decide
  have hnl2 : ∀ x ∈ list_to_string (data.counts.map natToStr), x ≠ '\n' := by
    intro x hx
    rcases list_to_string_chars _ x hx with rfl | ⟨y, hy, hxy⟩
    · decide
    · rcases List.mem_map.mp hy with ⟨n, _, rfl⟩
      exact isDigit_ne_newline x (natToStr_digits n x hxy)
  refine ⟨?_, ?_, ?_, by decide, by decide⟩
  · unfold store_content
    rw [splitOn1_append '\n' _ _ hnl1, splitOn1_append '\n' _ _ hnl2]
    rfl
  · apply list_to_string_getLast_ne
    · intro x hx
      rcases List.mem_map.mp hx with ⟨dd, _, rfl⟩
      exact dateToStr_ne_nil dd
    · intro x hx c hcx
      rcases List.mem_map.mp hx with ⟨dd, _, rfl⟩
      rcases dateToStr_chars dd c hcx with h | rfl
      · exact isDigit_ne_comma c h
      · decide
  · apply list_to_string_getLast_ne
    · intro x hx
      rcases List.mem_map.mp hx with ⟨n, _, rfl⟩
      exact natToStr_ne_nil n
    · intro x hx c hcx
      rcases List.mem_map.mp hx with ⟨n, _, rfl⟩
      exact isDigit_ne_comma c (natToStr_digits n c hcx)

theorem store_two_lines_witness :
    splitOn1 '\n' (store_content ⟨[⟨2021, 1, 15⟩], [42]⟩) =
      [list_to_string ((⟨[⟨2021, 1, 15⟩], [42]⟩ : Series).dates.map dateToStr),
       list_to_string ((⟨[⟨2021, 1, 15⟩], [42]⟩ : Series).counts.map natToStr),
       []] :=
  (store_two_lines ⟨[⟨2021, 1, 15⟩], [42]⟩ (by decide) (by decide)).1

/-- Claim C8: for a Series with empty dates or empty counts, the per-series
step of `main` does not invoke the Writer — the file-system state is
unchanged, so no file is created for that river and year — and instead a
warning naming the river and the year is appended to the output; the loop
then continues with the next series from that state. -/
theorem empty_series_warns (output river year : Str) (data : Series)
    (st : (Str → Option Str) × List Str)
    (h : data.dates = [] ∨ data.counts = []) :
    main_step output river st (year, data)
      = (st.1, st.2 ++ [warning_message river year]) ∧
    (∀ p, (main_step output river st (year, data)).1 p = st.1 p) ∧
    river <:+: warning_message river year ∧
    year <:+: warning_message river year ∧
    (∀ rest, main_loop output river st ((year, data) :: rest)
      = main_loop output river (st.1, st.2 ++ [warning_message river year]) rest) := by
  have hcond : ¬((year, data).2.dates ≠ [] ∧ (year, data).2.counts ≠ []) := by
    rcases h with h | h <;> simp [h]
  have hstep : main_step output river st (year, data)
      = (st.1, st.2 ++ [warning_message river year]) := by
    unfold main_step
    rw [if_neg hcond]
  refine ⟨hstep, fun p => by rw [hstep], ?_, ?_, fun rest => ?_⟩
  · exact ⟨strL "WARNING: No statistics available for river ",
      strL ", year " ++ year, by simp [warning_message]⟩
  · exact ⟨strL "WARNING: No statistics available for river " ++ river ++
      strL ", year ", [], by simp [warning_message]⟩
  · unfold main_loop
    rw [List.foldl_cons, hstep]

theorem empty_series_warns_witness :
    main_step (strL "out") (strL "ricklean")
        ((fun _ => none), []) (strL "2021", ⟨[], []⟩)
      = ((fun _ => (none : Option Str)),
         [warning_message (strL "ricklean") (strL "2021")]) := by
  have h := (empty_series_warns (strL "out") (strL "ricklean") (strL "2021")
    ⟨[], []⟩ ((fun _ => none), []) (Or.inl rfl)).1
  simpa using h

/-- Claim C9: the Writer is idempotent with respect to file content: opening
with mode `'w+'` truncates, so after any n ≥ 1 invocations with the same
Series and path the file holds exactly the Writer's serialized content,
independent of the prior content at that path and of n. -/
theorem writer_idempotent (n : Nat) (fs fs2 : Str → Option Str)
    (data : Series) (file_name : Str) (hn : 1 ≤ n) :
    ((fun g => store_salmon_statistics g data file_name)^[n] fs) file_name
      = some (store_content data) ∧
    ((fun g => store_salmon_statistics g data file_name)^[n] fs) file_name
      = store_salmon_statistics fs2 data file_name file_name := by
  obtain ⟨k, rfl⟩ : ∃ k, n = k + 1 := ⟨n - 1, by omega⟩
  rw [Function.iterate_succ_apply']
  constructor <;> simp [store_salmon_statistics]

theorem writer_idempotent_witness :
    ((fun g => store_salmon_statistics g (⟨[⟨2021, 1, 15⟩], [42]⟩ : Series)
        (strL "out/ricklean2021.txt"))^[2] (fun _ => some (strL "old")))
        (strL "out/ricklean2021.txt")
      = some (store_content ⟨[⟨2021, 1, 15⟩], [42]⟩) :=
  (writer_idempotent 2 (fun _ => some (strL "old")) (fun _ => none)
    ⟨[⟨2021, 1, 15⟩], [42]⟩ (strL "out/ricklean2021.txt") (by decide)).1
